import Mathlib

/-!
Verification of the daily sales-reconciliation workflow
(`src/lambda_function.py`) against its design specification.

The workflow is embedded shallowly: per-record enrichment, the approval
gate's reconciliation, ledger-sync batching and report generation become
pure Lean functions over explicit record structures; the externally
visible interactions (callback creation, approval notification, ledger
sync calls, rate-limit waits) are collected into an event trace.  Python
integers become `Nat` (the data model restricts `amount` and `quantity`
to positive integers); the binary64 float arithmetic in `process_record`
(`int(amount * 0.1)`, `int(amount * 1.1)`) is modelled exactly via
round-to-nearest-even on 53-bit significands.
-/

namespace SalesWf

/-- Threshold above which a transaction needs approval (source constant
`HIGH_VALUE_THRESHOLD = 1000000`). -/
def HIGH_VALUE_THRESHOLD : ℕ := 1000000

/-- Enrichment batch size (source constant `BATCH_SIZE = 100`). -/
def BATCH_SIZE : ℕ := 100

/-- Ledger-sync batch size (source constant `API_BATCH_SIZE = 1000`). -/
def API_BATCH_SIZE : ℕ := 1000

/-- Rate-limit pause between ledger-sync batches (source constant
`API_RATE_LIMIT_WAIT_SECONDS = 10`). -/
def API_RATE_LIMIT_WAIT_SECONDS : ℕ := 10

/-- A sales record as produced by `fetch_sales_data`: the eight CSV
columns, with `amount` and `quantity` parsed as integers. -/
structure SalesRecord where
  id : String
  customer_name : String
  product : String
  amount : ℕ
  quantity : ℕ
  region : String
  category : String
  timestamp : String
  deriving DecidableEq

/-- A record after `process_record`: the base fields plus `tax`, `total`
and the `processed` flag. -/
structure EnrichedRecord extends SalesRecord where
  tax : ℕ
  total : ℕ
  processed : Bool
  deriving DecidableEq

/-! ### Exact model of the binary64 arithmetic in `process_record`

`process_record` computes `int(record['amount'] * 0.1)` and
`int(record['amount'] * 1.1)` with Python floats, i.e. IEEE-754 binary64:
the integer `amount` is rounded to a double, multiplied by the double
nearest 0.1 (resp. 1.1), the product is rounded to a double again, and
`int` truncates (for non-negative values: takes the floor).  The doubles
nearest 0.1 and 1.1 are `3602879701896397 / 2^55` and
`2476979795053773 / 2^51`.  All quantities stay far below the binary64
overflow range, so rounding to 53 significant bits is the whole story. -/

/-- Number of binary digits of `n`, computed with explicit fuel so that
the function is structurally recursive (`bitsAux f n` is correct whenever
`n < 2 ^ f`). -/
def bitsAux : ℕ → ℕ → ℕ
  | 0, _ => 0
  | f + 1, n => if n = 0 then 0 else bitsAux f (n / 2) + 1

/-- Number of binary digits of `n` (correct for every `n < 2 ^ 1100`,
far beyond any finite binary64 value arising here). -/
def bits (n : ℕ) : ℕ := bitsAux 1100 n

/-- Round the non-negative integer `N` to a 53-bit significand,
round-to-nearest, ties to even; the result `(m, s)` denotes the value
`m * 2 ^ s`. -/
def fl53 (N : ℕ) : ℕ × ℕ :=
  let b := bits N
  if b ≤ 53 then (N, 0)
  else
    let s := b - 53
    let q := N / 2 ^ s
    let r := N % 2 ^ s
    let h := 2 ^ (s - 1)
    let m := if h < r ∨ (r = h ∧ q % 2 = 1) then q + 1 else q
    (m, s)

/-- The value `floorFlMul a c p` is `int(float(a) * (c / 2^p))` in binary64: round
`a` to a double, multiply by the double `c / 2 ^ p`, round the product to
a double, and truncate (floor, as everything is non-negative). -/
def floorFlMul (a c p : ℕ) : ℕ :=
  let f := fl53 a
  let g := fl53 (f.1 * c)
  let e := g.2 + f.2
  if p ≤ e then g.1 * 2 ^ (e - p) else g.1 / 2 ^ (p - e)

/-- Embedding of `process_record`: attach `tax = int(amount * 0.1)`,
`total = int(amount * 1.1)` (binary64 arithmetic, modelled exactly) and
the `processed` flag, keeping every base field. -/
def process_record (r : SalesRecord) : EnrichedRecord :=
  { toSalesRecord := r
    tax := floorFlMul r.amount 3602879701896397 55
    total := floorFlMul r.amount 2476979795053773 51
    processed := true }

/-- Embedding of `process_batch`: map `process_record` over the batch.
The `index` and `all_batches` arguments are received (they are passed by
`context.map`) but only logged, never used in the output. -/
def process_batch (batch : List SalesRecord) (index : ℕ)
    (all_batches : List (List SalesRecord)) : List EnrichedRecord :=
  batch.map process_record

/-! ### Batching (`records[i:i+k] for i in range(0, len(records), k)`) -/

/-- Fuel-indexed splitting of a list into consecutive chunks of size `k`
(the fuel makes the recursion structural; `l.length` fuel is enough). -/
def chunksAux (k : ℕ) : ℕ → List α → List (List α)
  | _, [] => []
  | 0, _ :: _ => []
  | f + 1, x :: xs => (x :: xs).take k :: chunksAux k f ((x :: xs).drop k)

/-- Split `l` into consecutive chunks of size `k`, the last one possibly
smaller: the Python slicing loop `[l[i:i+k] for i in range(0, len(l), k)]`. -/
def chunks (k : ℕ) (l : List α) : List (List α) :=
  chunksAux k l.length l

/-- Embedding of `extract_high_value_ids`: ids of the records whose
amount reaches the threshold. -/
def extract_high_value_ids (records : List EnrichedRecord) (threshold : ℕ) :
    List String :=
  (records.filter (fun r => decide (threshold ≤ r.amount))).map (fun r => r.id)

/-! ### Ledger sync -/

/-- Externally visible interactions of one workflow run. -/
inductive WfEvent where
  | createCallback : WfEvent
  | sendApprovalRequest (high_value_count : ℕ) : WfEvent
  | syncCall (records : List EnrichedRecord) : WfEvent
  | waitSeconds (seconds : ℕ) : WfEvent
  deriving DecidableEq

/-- Fuel-indexed embedding of the ledger-sync loop
(`for i in range(0, len(approved_records), API_BATCH_SIZE)`): sync the
slice `l[i:i+API_BATCH_SIZE]`, and wait `API_RATE_LIMIT_WAIT_SECONDS`
exactly when `i + API_BATCH_SIZE < len(l)`, i.e. when more than
`API_BATCH_SIZE` records remain. -/
def syncLoopAux : ℕ → List EnrichedRecord → List WfEvent
  | _, [] => []
  | 0, _ :: _ => []
  | f + 1, x :: xs =>
    WfEvent.syncCall ((x :: xs).take API_BATCH_SIZE) ::
      (if API_BATCH_SIZE < (x :: xs).length then
        WfEvent.waitSeconds API_RATE_LIMIT_WAIT_SECONDS ::
          syncLoopAux f ((x :: xs).drop API_BATCH_SIZE)
      else [])

/-- Event trace of the ledger-sync loop on `approved_records`. -/
def syncEvents (l : List EnrichedRecord) : List WfEvent :=
  syncLoopAux l.length l

/-- Stated from the spec's words, for comparison with `syncEvents`: one
sync call per batch, strictly in order, with a 10-second wait after every
batch except the last. -/
def seqBatchesWithWaits : List (List EnrichedRecord) → List WfEvent
  | [] => []
  | [b] => [WfEvent.syncCall b]
  | b :: b' :: bs =>
    WfEvent.syncCall b :: WfEvent.waitSeconds 10 ::
      seqBatchesWithWaits (b' :: bs)

/-! ### Retry policy for `sync_to_external_api` -/

/-- Embedding of the inline retry policy
`lambda e, n: dict(should_retry = n < 5, delay = min(5 * 2**(n-1), 60))`
for failure count `n` (1-indexed, per the runtime's contract). -/
def retry_strategy (n : ℕ) : Bool × ℕ :=
  (decide (n < 5), min (5 * 2 ^ (n - 1)) 60)

/-- Fuel-indexed unfolding of the runtime retry loop under a policy that
is consulted after each failed attempt (fuel 6 covers every reachable
failure count, as retries stop once `n < 5` fails). -/
def failureDelaysAux : ℕ → ℕ → List ℕ
  | 0, _ => []
  | f + 1, n =>
    if (retry_strategy n).1 then
      (retry_strategy n).2 :: failureDelaysAux f (n + 1)
    else []

/-- Modelled from the spec: the durable runtime's step-retry loop (the
runtime itself is an external collaborator, §6 `step(fn, retryPolicy?)`).
After the `n`-th consecutive failure of the step the policy is consulted;
if it allows a retry the returned delay is waited and the next attempt is
made, otherwise the step fails permanently.  `failureDelays n` is the
list of delays observed from failure `n` on when every attempt fails. -/
def failureDelays (n : ℕ) : List ℕ := failureDelaysAux 6 n

/-! ### Report generation -/

/-- The rejection-detail object written by `generate_report` when
`rejected_records` is non-empty. -/
structure RejectedReport where
  date : String
  rejected_count : ℕ
  total_amount : ℕ
  records : List EnrichedRecord
  deriving DecidableEq

/-- The summary object always written by `generate_report`. -/
structure SummaryReport where
  date : String
  total_approved : ℕ
  total_rejected : ℕ
  approved_sales : ℕ
  rejected_sales : ℕ
  deriving DecidableEq

/-- Result of `generate_report`: the artifacts written and the returned
locations (`rejected_url` is `none` exactly when no detail was written). -/
structure ReportOutput where
  rejectedDetail : Option RejectedReport
  summary : SummaryReport
  summary_url : String
  rejected_url : Option String
  deriving DecidableEq

/-- Total amount of a record list (`sum(r['amount'] for r in l)`). -/
def amountSum (l : List EnrichedRecord) : ℕ :=
  (l.map (fun r => r.amount)).sum

/-- Embedding of `generate_report`: write the rejection-detail object and
produce its location only if `rejected_records` is non-empty (Python
truthiness), then always write the summary object. -/
def generate_report (bucket date : String)
    (approved_records rejected_records : List EnrichedRecord) : ReportOutput :=
  let rejectedDetail : Option RejectedReport :=
    if rejected_records.isEmpty then none
    else some
      { date := date
        rejected_count := rejected_records.length
        total_amount := amountSum rejected_records
        records := rejected_records }
  let rejected_url : Option String :=
    if rejected_records.isEmpty then none
    else some ("s3://" ++ bucket ++ "/rejected/" ++ date ++ "-rejected.json")
  let summary : SummaryReport :=
    { date := date
      total_approved := approved_records.length
      total_rejected := rejected_records.length
      approved_sales := amountSum approved_records
      rejected_sales := amountSum rejected_records }
  { rejectedDetail := rejectedDetail
    summary := summary
    summary_url := "s3://" ++ bucket ++ "/reports/" ++ date ++ "-report.json"
    rejected_url := rejected_url }

/-! ### The whole workflow (`lambda_handler`) -/

/-- The dict returned by `lambda_handler`. -/
structure HandlerResult where
  status : String
  date : String
  total_records : ℕ
  approved_records : ℕ
  rejected_records : ℕ
  report_url : String
  deriving DecidableEq

/-- All intermediate values of one `lambda_handler` run, mirroring the
handler's local variables, plus the event trace. -/
structure WorkflowRun where
  processed : List EnrichedRecord
  high_value_ids : List String
  approved_ids : List String
  rejected_ids : List String
  gateEvents : List WfEvent
  approved_records : List EnrichedRecord
  ledgerEvents : List WfEvent
  rejected_records : List EnrichedRecord
  report : ReportOutput
  result : HandlerResult
  deriving DecidableEq

/-- Embedding of `lambda_handler` on already-fetched records.  `payload`
models the approval callback's decision: `none` is a missing/empty
payload (`callback.result() or '{}'` followed by `.get('approved_ids',
[])` yields `[]`), `some A` a payload with `approved_ids = A`.  The
callback is created, the notification sent and the payload consulted only
when `high_value_ids` is non-empty (Python truthiness of the list). -/
def runWorkflow (bucket date : String) (records : List SalesRecord)
    (payload : Option (List String)) : WorkflowRun :=
  let batches := chunks BATCH_SIZE records
  let processed := (batches.enum.map (fun p => process_batch p.2 p.1 batches)).flatten
  let high_value_ids := extract_high_value_ids processed HIGH_VALUE_THRESHOLD
  let approved_ids : List String :=
    if high_value_ids.isEmpty then [] else payload.getD []
  let rejected_ids : List String :=
    high_value_ids.filter (fun i => !(approved_ids.contains i))
  let gateEvents : List WfEvent :=
    if high_value_ids.isEmpty then []
    else [WfEvent.createCallback,
          WfEvent.sendApprovalRequest high_value_ids.length]
  let approved_records : List EnrichedRecord :=
    processed.filter
      (fun r => decide (r.amount < HIGH_VALUE_THRESHOLD) ||
        approved_ids.contains r.id)
  let ledgerEvents := syncEvents approved_records
  let rejected_records : List EnrichedRecord :=
    processed.filter (fun r => rejected_ids.contains r.id)
  let report := generate_report bucket date approved_records rejected_records
  { processed := processed
    high_value_ids := high_value_ids
    approved_ids := approved_ids
    rejected_ids := rejected_ids
    gateEvents := gateEvents
    approved_records := approved_records
    ledgerEvents := ledgerEvents
    rejected_records := rejected_records
    report := report
    result :=
      { status := "completed"
        date := date
        total_records := records.length
        approved_records := approved_records.length
        rejected_records := rejected_records.length
        report_url := report.summary_url } }

/-- The value `lambda_handler` returns. -/
def lambda_handler (bucket date : String) (records : List SalesRecord)
    (payload : Option (List String)) : HandlerResult :=
  (runWorkflow bucket date records payload).result

/-- The merged enrichment output (step 2 of the handler). -/
def enrich_all (records : List SalesRecord) : List EnrichedRecord :=
  (runWorkflow "" "" records none).processed

/-! ### Basic lemmas about the fuel-indexed helpers -/

/-- The function `chunksAux` does not depend on the fuel once it covers the list. -/
theorem chunksAux_congr {α : Type _} (k : ℕ) (hk : 0 < k) :
    ∀ (f₁ f₂ : ℕ) (l : List α), l.length ≤ f₁ → l.length ≤ f₂ →
      chunksAux k f₁ l = chunksAux k f₂ l := by
  intro f₁
  induction f₁ with
  | zero =>
    intro f₂ l h₁ _
    have hl : l = [] := List.length_eq_zero.mp (Nat.le_zero.mp h₁)
    subst hl
    cases f₂ <;> rfl
  | succ g ih =>
    intro f₂ l h₁ h₂
    cases l with
    | nil => cases f₂ <;> rfl
    | cons x xs =>
      cases f₂ with
      | zero => simp at h₂
      | succ g₂ =>
        simp only [chunksAux]
        have hd : ((x :: xs).drop k).length ≤ g := by
          simp only [List.length_drop, List.length_cons] at *
          omega
        have hd₂ : ((x :: xs).drop k).length ≤ g₂ := by
          simp only [List.length_drop, List.length_cons] at *
          omega
        rw [ih g₂ _ hd hd₂]

/-- Unfolding equation for `chunks` on a non-empty list. -/
theorem chunks_eq_cons {α : Type _} (k : ℕ) (hk : 0 < k) (x : α) (xs : List α) :
    chunks k (x :: xs) = (x :: xs).take k :: chunks k ((x :: xs).drop k) := by
  show chunksAux k (xs.length + 1) (x :: xs) = _
  simp only [chunksAux]
  congr 1
  exact chunksAux_congr k hk _ _ _
    (by simp only [List.length_drop, List.length_cons]; omega) le_rfl

/-- The chunks of a non-empty list form a non-empty list. -/
theorem chunks_ne_nil {α : Type _} (k : ℕ) (hk : 0 < k) {l : List α}
    (hl : l ≠ []) : chunks k l ≠ [] := by
  cases l with
  | nil => exact absurd rfl hl
  | cons x xs => rw [chunks_eq_cons k hk]; exact List.cons_ne_nil _ _

/-- Concatenating the chunks restores the original list. -/
theorem chunks_flatten {α : Type _} (k : ℕ) (hk : 0 < k) :
    ∀ l : List α, (chunks k l).flatten = l
  | [] => rfl
  | x :: xs => by
    rw [chunks_eq_cons k hk, List.flatten_cons,
      chunks_flatten k hk ((x :: xs).drop k), List.take_append_drop]
  termination_by l => l.length
  decreasing_by
    simp only [List.length_drop, List.length_cons]
    omega

/-- Every chunk has size at most `k`. -/
theorem chunks_mem_length_le {α : Type _} (k : ℕ) (hk : 0 < k) :
    ∀ l : List α, ∀ b ∈ chunks k l, b.length ≤ k
  | [], b, hb => by simp [chunks, chunksAux] at hb
  | x :: xs, b, hb => by
    rw [chunks_eq_cons k hk] at hb
    rcases List.mem_cons.mp hb with rfl | hb'
    · simp only [List.length_take]
      omega
    · exact chunks_mem_length_le k hk ((x :: xs).drop k) b hb'
  termination_by l => l.length
  decreasing_by
    simp only [List.length_drop, List.length_cons]
    omega

/-- Every chunk is non-empty. -/
theorem chunks_mem_ne_nil {α : Type _} (k : ℕ) (hk : 0 < k) :
    ∀ l : List α, ∀ b ∈ chunks k l, b ≠ []
  | [], b, hb => by simp [chunks, chunksAux] at hb
  | x :: xs, b, hb => by
    rw [chunks_eq_cons k hk] at hb
    rcases List.mem_cons.mp hb with rfl | hb'
    · apply List.ne_nil_of_length_pos
      simp only [List.length_take, List.length_cons]
      omega
    · exact chunks_mem_ne_nil k hk ((x :: xs).drop k) b hb'
  termination_by l => l.length
  decreasing_by
    simp only [List.length_drop, List.length_cons]
    omega

/-- Every chunk except possibly the last has size exactly `k`. -/
theorem chunks_dropLast_length {α : Type _} (k : ℕ) (hk : 0 < k) :
    ∀ l : List α, ∀ b ∈ (chunks k l).dropLast, b.length = k
  | [], b, hb => by simp [chunks, chunksAux] at hb
  | x :: xs, b, hb => by
    rw [chunks_eq_cons k hk] at hb
    by_cases hd : (x :: xs).drop k = []
    · rw [hd] at hb
      simp [chunks, chunksAux] at hb
    · obtain ⟨c, cs, hcc⟩ := List.exists_cons_of_ne_nil (chunks_ne_nil k hk hd)
      rw [hcc, List.dropLast_cons₂] at hb
      rcases List.mem_cons.mp hb with rfl | hb'
      · have hlen : k < (x :: xs).length := by
          by_contra hcon
          exact hd (List.drop_eq_nil_of_le (by omega))
        simp only [List.length_take]
        omega
      · rw [← hcc] at hb'
        exact chunks_dropLast_length k hk ((x :: xs).drop k) b hb'
  termination_by l => l.length
  decreasing_by
    simp only [List.length_drop, List.length_cons]
    omega

/-- The function `syncLoopAux` does not depend on the fuel once it covers the list. -/
theorem syncLoopAux_congr :
    ∀ (f₁ f₂ : ℕ) (l : List EnrichedRecord), l.length ≤ f₁ → l.length ≤ f₂ →
      syncLoopAux f₁ l = syncLoopAux f₂ l := by
  intro f₁
  induction f₁ with
  | zero =>
    intro f₂ l h₁ _
    have hl : l = [] := List.length_eq_zero.mp (Nat.le_zero.mp h₁)
    subst hl
    cases f₂ <;> rfl
  | succ g ih =>
    intro f₂ l h₁ h₂
    cases l with
    | nil => cases f₂ <;> rfl
    | cons x xs =>
      cases f₂ with
      | zero => simp at h₂
      | succ g₂ =>
        simp only [syncLoopAux]
        by_cases hlt : API_BATCH_SIZE < (x :: xs).length
        · simp only [if_pos hlt]
          have hd : ((x :: xs).drop API_BATCH_SIZE).length ≤ g := by
            simp only [List.length_drop, List.length_cons] at *
            have : 0 < API_BATCH_SIZE := by norm_num [API_BATCH_SIZE]
            omega
          have hd₂ : ((x :: xs).drop API_BATCH_SIZE).length ≤ g₂ := by
            simp only [List.length_drop, List.length_cons] at *
            have : 0 < API_BATCH_SIZE := by norm_num [API_BATCH_SIZE]
            omega
          rw [ih g₂ _ hd hd₂]
        · simp only [if_neg hlt]

/-- Unfolding equation for `syncEvents` on a non-empty list. -/
theorem syncEvents_cons (x : EnrichedRecord) (xs : List EnrichedRecord) :
    syncEvents (x :: xs) =
      WfEvent.syncCall ((x :: xs).take API_BATCH_SIZE) ::
        (if API_BATCH_SIZE < (x :: xs).length then
          WfEvent.waitSeconds API_RATE_LIMIT_WAIT_SECONDS ::
            syncEvents ((x :: xs).drop API_BATCH_SIZE)
        else []) := by
  show syncLoopAux (xs.length + 1) (x :: xs) = _
  simp only [syncLoopAux]
  by_cases hlt : API_BATCH_SIZE < (x :: xs).length
  · simp only [if_pos hlt]
    congr 2
    exact syncLoopAux_congr _ _ _
      (by
        simp only [List.length_drop, List.length_cons]
        have : 0 < API_BATCH_SIZE := by norm_num [API_BATCH_SIZE]
        omega)
      le_rfl
  · simp only [if_neg hlt]

/-- The merged enrichment pipeline of the handler is a plain map of
`process_record` over all records: batching and batch indices do not
influence the merged result. -/
theorem enrich_pipeline_eq (records : List SalesRecord) :
    ((chunks BATCH_SIZE records).enum.map
      (fun p => process_batch p.2 p.1 (chunks BATCH_SIZE records))).flatten
      = records.map process_record := by
  have h1 : ((chunks BATCH_SIZE records).enum.map
      (fun p => process_batch p.2 p.1 (chunks BATCH_SIZE records)))
      = (chunks BATCH_SIZE records).map (fun b => b.map process_record) := by
    show ((chunks BATCH_SIZE records).enum.map
      ((fun b => b.map process_record) ∘ Prod.snd)) = _
    rw [← List.map_map, List.enum_map_snd]
  rw [h1, ← List.map_flatten,
    chunks_flatten BATCH_SIZE (by norm_num [BATCH_SIZE]) records]

/-! ### Closed forms of the workflow run's fields -/

theorem run_processed (bucket date : String) (records : List SalesRecord)
    (payload : Option (List String)) :
    (runWorkflow bucket date records payload).processed
      = records.map process_record :=
  enrich_pipeline_eq records

theorem run_hvi (bucket date : String) (records : List SalesRecord)
    (payload : Option (List String)) :
    (runWorkflow bucket date records payload).high_value_ids
      = extract_high_value_ids
          ((runWorkflow bucket date records payload).processed)
          HIGH_VALUE_THRESHOLD := rfl

theorem run_approved_ids (bucket date : String) (records : List SalesRecord)
    (payload : Option (List String)) :
    (runWorkflow bucket date records payload).approved_ids
      = if (runWorkflow bucket date records payload).high_value_ids.isEmpty
        then [] else payload.getD [] := rfl

theorem run_rejected_ids (bucket date : String) (records : List SalesRecord)
    (payload : Option (List String)) :
    (runWorkflow bucket date records payload).rejected_ids
      = (runWorkflow bucket date records payload).high_value_ids.filter
          (fun i =>
            !((runWorkflow bucket date records payload).approved_ids.contains i)) :=
  rfl

theorem run_gateEvents (bucket date : String) (records : List SalesRecord)
    (payload : Option (List String)) :
    (runWorkflow bucket date records payload).gateEvents
      = if (runWorkflow bucket date records payload).high_value_ids.isEmpty
        then []
        else [WfEvent.createCallback,
          WfEvent.sendApprovalRequest
            (runWorkflow bucket date records payload).high_value_ids.length] := rfl

theorem run_approved_records (bucket date : String) (records : List SalesRecord)
    (payload : Option (List String)) :
    (runWorkflow bucket date records payload).approved_records
      = (runWorkflow bucket date records payload).processed.filter
          (fun r => decide (r.amount < HIGH_VALUE_THRESHOLD) ||
            (runWorkflow bucket date records payload).approved_ids.contains r.id) :=
  rfl

theorem run_ledgerEvents (bucket date : String) (records : List SalesRecord)
    (payload : Option (List String)) :
    (runWorkflow bucket date records payload).ledgerEvents
      = syncEvents (runWorkflow bucket date records payload).approved_records :=
  rfl

theorem run_rejected_records (bucket date : String) (records : List SalesRecord)
    (payload : Option (List String)) :
    (runWorkflow bucket date records payload).rejected_records
      = (runWorkflow bucket date records payload).processed.filter
          (fun r =>
            (runWorkflow bucket date records payload).rejected_ids.contains r.id) :=
  rfl

theorem run_report (bucket date : String) (records : List SalesRecord)
    (payload : Option (List String)) :
    (runWorkflow bucket date records payload).report
      = generate_report bucket date
          (runWorkflow bucket date records payload).approved_records
          (runWorkflow bucket date records payload).rejected_records := rfl

theorem run_result (bucket date : String) (records : List SalesRecord)
    (payload : Option (List String)) :
    (runWorkflow bucket date records payload).result
      = { status := "completed"
          date := date
          total_records := records.length
          approved_records :=
            (runWorkflow bucket date records payload).approved_records.length
          rejected_records :=
            (runWorkflow bucket date records payload).rejected_records.length
          report_url :=
            (runWorkflow bucket date records payload).report.summary_url } := rfl

/-- Enrichment keeps each record's id, so the merged output carries the
same id sequence as the input. -/
theorem processed_map_id (records : List SalesRecord) :
    ((records.map process_record).map (fun r => r.id))
      = records.map (fun r => r.id) := by
  rw [List.map_map]
  rfl

/-- The ledger-sync event trace is exactly the spec's picture: the
batches of `API_BATCH_SIZE` in order, a 10-second wait between
consecutive ones and none at the end. -/
theorem syncEvents_eq_seq : ∀ l : List EnrichedRecord,
    syncEvents l = seqBatchesWithWaits (chunks API_BATCH_SIZE l)
  | [] => rfl
  | x :: xs => by
    have hk : 0 < API_BATCH_SIZE := by norm_num [API_BATCH_SIZE]
    rw [syncEvents_cons, chunks_eq_cons API_BATCH_SIZE hk]
    by_cases hlt : API_BATCH_SIZE < (x :: xs).length
    · have hd : (x :: xs).drop API_BATCH_SIZE ≠ [] := by
        apply List.ne_nil_of_length_pos
        simp only [List.length_drop, List.length_cons] at *
        omega
      obtain ⟨c, cs, hcc⟩ :=
        List.exists_cons_of_ne_nil (chunks_ne_nil API_BATCH_SIZE hk hd)
      rw [if_pos hlt, syncEvents_eq_seq ((x :: xs).drop API_BATCH_SIZE), hcc]
      rfl
    · rw [if_neg hlt]
      have hle : (x :: xs).length ≤ API_BATCH_SIZE := by omega
      rw [List.drop_eq_nil_of_le hle, List.take_of_length_le hle]
      rfl
  termination_by l => l.length
  decreasing_by
    simp only [List.length_drop, List.length_cons, API_BATCH_SIZE]
    omega

/-! ### The claims -/

/-- C6: for every approved-record list, LedgerSync partitions it into
consecutive batches of `API_BATCH_SIZE = 1000` (each batch non-empty and
of size at most 1000, every batch except possibly the last of size
exactly 1000, and their concatenation restoring the input in order), and
its event trace is one sync call per batch, strictly sequential and in
order, with a wait of exactly 10 seconds after every batch that is not
the last one and no wait after the last batch. -/
theorem ledger_sync_batching (l : List EnrichedRecord) :
    syncEvents l = seqBatchesWithWaits (chunks API_BATCH_SIZE l) ∧
    (chunks API_BATCH_SIZE l).flatten = l ∧
    (∀ b ∈ chunks API_BATCH_SIZE l, b ≠ [] ∧ b.length ≤ API_BATCH_SIZE) ∧
    ∀ b ∈ (chunks API_BATCH_SIZE l).dropLast, b.length = API_BATCH_SIZE := by
  have hk : 0 < API_BATCH_SIZE := by norm_num [API_BATCH_SIZE]
  exact ⟨syncEvents_eq_seq l, chunks_flatten _ hk l,
    fun b hb =>
      ⟨chunks_mem_ne_nil _ hk l b hb, chunks_mem_length_le _ hk l b hb⟩,
    chunks_dropLast_length _ hk l⟩

/-- C7: for every (date, approved, rejected) input, `generate_report`
always produces the summary object with the counts and total amounts of
both partitions; it produces the rejection-detail object and a non-null
rejected-detail location exactly when `rejected` is non-empty, and the
detail object then carries the full rejected records and their total. -/
theorem report_artifacts (bucket date : String)
    (approved rejected : List EnrichedRecord) :
    (generate_report bucket date approved rejected).summary
        = { date := date
            total_approved := approved.length
            total_rejected := rejected.length
            approved_sales := amountSum approved
            rejected_sales := amountSum rejected } ∧
    ((generate_report bucket date approved rejected).rejectedDetail.isSome
        ↔ rejected ≠ []) ∧
    ((generate_report bucket date approved rejected).rejected_url.isSome
        ↔ rejected ≠ []) ∧
    ∀ d ∈ (generate_report bucket date approved rejected).rejectedDetail,
      d = { date := date
            rejected_count := rejected.length
            total_amount := amountSum rejected
            records := rejected } := by
  cases rejected with
  | nil => simp [generate_report]
  | cons y ys => simp [generate_report]

/-- C9: per-record enrichment is a pure, deterministic function of the
record (as embedded, it is literally a function, so determinism is
definitional); it is idempotent on the base fields — re-enriching the
base fields of an enriched record reproduces the same enriched record,
hence the same tax and total — and the output does not depend on the
batch index, the batch list or the batching itself: the merged
enrichment output equals the plain map of `process_record` over the
input. -/
theorem enrichment_pure_idempotent (r : SalesRecord) (b : List SalesRecord)
    (i j : ℕ) (A B : List (List SalesRecord)) (records : List SalesRecord) :
    process_record ((process_record r).toSalesRecord) = process_record r ∧
    process_batch b i A = process_batch b j B ∧
    enrich_all records = records.map process_record :=
  ⟨rfl, rfl, run_processed "" "" records none⟩

/-- C8: the Enricher's merged output has exactly as many records as the
input, carries exactly the input's id sequence, and — when the input ids
are unique — contains every input record's id exactly once. -/
theorem enricher_output_ids (records : List SalesRecord) :
    (enrich_all records).length = records.length ∧
    (enrich_all records).map (fun r => r.id) = records.map (fun r => r.id) ∧
    ((records.map (fun r => r.id)).Nodup →
      ∀ r ∈ records,
        ((enrich_all records).map (fun r => r.id)).count r.id = 1) := by
  have he : enrich_all records = records.map process_record :=
    run_processed "" "" records none
  have hids : (enrich_all records).map (fun r => r.id)
      = records.map (fun r => r.id) := by
    rw [he, processed_map_id]
  refine ⟨by rw [he, List.length_map], hids, ?_⟩
  intro hnd r hr
  rw [hids]
  exact List.count_eq_one_of_mem hnd (List.mem_map_of_mem (fun r => r.id) hr)

/-- C8 witness: a concrete two-record batch with distinct ids. -/
theorem enricher_output_ids_witness :
    ([(⟨"a", "c", "p", 100, 1, "r", "g", "t"⟩ : SalesRecord),
        ⟨"b", "c", "p", 2000000, 2, "r", "g", "t"⟩].map
          (fun r => r.id)).Nodup ∧
    ∀ r ∈ [(⟨"a", "c", "p", 100, 1, "r", "g", "t"⟩ : SalesRecord),
        ⟨"b", "c", "p", 2000000, 2, "r", "g", "t"⟩],
      ((enrich_all [(⟨"a", "c", "p", 100, 1, "r", "g", "t"⟩ : SalesRecord),
          ⟨"b", "c", "p", 2000000, 2, "r", "g", "t"⟩]).map
            (fun r => r.id)).count r.id = 1 :=
  ⟨by decide,
    (enricher_output_ids
      [⟨"a", "c", "p", 100, 1, "r", "g", "t"⟩,
        ⟨"b", "c", "p", 2000000, 2, "r", "g", "t"⟩]).2.2 (by decide)⟩

/-- C4 counterexample: an always-failing ledger-sync batch observes the
delays 5, 10, 20, 40 — not the claimed 5, 10, 20, 40, 60: the policy
stops retrying after the 4th delay, so no fifth delay ever occurs. -/
theorem retry_delay_seq_counterexample :
    failureDelays 1 ≠ [5, 10, 20, 40, 60] := by decide

/-- C4 amended: the delay after the n-th consecutive failure (for the
realized failure counts n = 1..4) is min(5·2^(n-1), 60) seconds, so an
always-failing batch sees the delays 5, 10, 20, 40 and fails permanently
after its 5th failed attempt; the 60-second cap is never reached, as no
delay follows the 5th failure. -/
theorem retry_policy_behavior :
    failureDelays 1 = [5, 10, 20, 40] ∧
    (∀ n : ℕ, 1 ≤ n → n ≤ 4 →
      retry_strategy n = (true, min (5 * 2 ^ (n - 1)) 60)) ∧
    (retry_strategy 5).1 = false ∧
    60 ∉ failureDelays 1 := by
  refine ⟨by decide, ?_, by decide, by decide⟩
  intro n h1 h4
  have h5 : n < 5 := by omega
  simp [retry_strategy, h5]

/-- C4 witness: the third delay is min(5·2^2, 60) = 20 seconds. -/
theorem retry_policy_behavior_witness :
    retry_strategy 3 = (true, min (5 * 2 ^ (3 - 1)) 60) :=
  retry_policy_behavior.2.1 3 (by decide) (by decide)

set_option maxRecDepth 40000 in
/-- C3: at the positive amount 511828406255359 the code's binary64
computation `int(amount * 1.1)` yields 563011246880895, while the exact
`floor(amount * 1.1) = floor(11 * amount / 10)` is 563011246880894 — the
enrichment code diverges from the specified floor semantics. -/
theorem enrichment_float_divergence :
    0 < (511828406255359 : ℕ) ∧
    (process_record
        ⟨"t", "c", "p", 511828406255359, 1, "r", "g", "ts"⟩).total
      = 563011246880895 ∧
    11 * 511828406255359 / 10 = 563011246880894 := by
  refine ⟨by norm_num, ?_, by norm_num⟩
  decide

/-- Membership in the extracted high-value id list. -/
theorem mem_hvi {P : List EnrichedRecord} {i : String} :
    i ∈ extract_high_value_ids P HIGH_VALUE_THRESHOLD ↔
      ∃ r, r ∈ P ∧ HIGH_VALUE_THRESHOLD ≤ r.amount ∧ r.id = i := by
  simp [extract_high_value_ids, List.mem_map, List.mem_filter, and_assoc]

/-- C1: the gate reconciles the decision payload `A` against the flagged
set `H = high_value_ids` exactly as `rejected_ids = H − (A ∩ H)`; the
payload's ids outside `H` have no effect on the approved/rejected record
partition (filtering the payload down to `A ∩ H` leaves both partitions
unchanged), and a missing payload behaves like the empty list. -/
theorem approval_gate_reconciliation (bucket date : String)
    (records : List SalesRecord) (A : List String) :
    (∀ i : String,
      i ∈ (runWorkflow bucket date records (some A)).rejected_ids ↔
        (i ∈ (runWorkflow bucket date records (some A)).high_value_ids ∧
          ¬(i ∈ A ∧
            i ∈ (runWorkflow bucket date records (some A)).high_value_ids))) ∧
    (runWorkflow bucket date records
        (some (A.filter (fun i =>
          (runWorkflow bucket date records (some A)).high_value_ids.contains i)))
      ).approved_records
      = (runWorkflow bucket date records (some A)).approved_records ∧
    (runWorkflow bucket date records
        (some (A.filter (fun i =>
          (runWorkflow bucket date records (some A)).high_value_ids.contains i)))
      ).rejected_records
      = (runWorkflow bucket date records (some A)).rejected_records ∧
    runWorkflow bucket date records none
      = runWorkflow bucket date records (some []) := by
  have hAids : ∀ i ∈ extract_high_value_ids (records.map process_record)
      HIGH_VALUE_THRESHOLD,
      (A.filter (fun j =>
        (extract_high_value_ids (records.map process_record)
          HIGH_VALUE_THRESHOLD).contains j)).contains i = A.contains i := by
    intro i hi
    simp [List.elem_eq_mem, List.mem_filter, hi]
  refine ⟨?_, ?_, ?_, rfl⟩
  · intro i
    rw [run_rejected_ids, run_approved_ids, run_hvi, run_processed]
    by_cases hE : (extract_high_value_ids (records.map process_record)
        HIGH_VALUE_THRESHOLD).isEmpty
    · rw [List.isEmpty_iff.mp hE]
      simp
    · rw [if_neg hE]
      simp only [List.mem_filter, Bool.not_eq_true', List.elem_eq_mem,
        decide_eq_false_iff_not]
      tauto
  · rw [run_approved_records, run_approved_records, run_processed,
      run_processed, run_approved_ids, run_approved_ids, run_hvi, run_hvi,
      run_processed, run_processed]
    by_cases hE : (extract_high_value_ids (records.map process_record)
        HIGH_VALUE_THRESHOLD).isEmpty
    · rw [if_pos hE, if_pos hE]
    · rw [if_neg hE, if_neg hE]
      apply List.filter_congr
      intro r hr
      by_cases hlt : r.amount < HIGH_VALUE_THRESHOLD
      · simp [hlt]
      · have hidH : r.id ∈ extract_high_value_ids (records.map process_record)
            HIGH_VALUE_THRESHOLD :=
          mem_hvi.mpr ⟨r, hr, by omega, rfl⟩
        simp only [Option.getD_some]
        rw [hAids r.id hidH]
  · rw [run_rejected_records, run_rejected_records, run_processed,
      run_processed, run_rejected_ids, run_rejected_ids, run_approved_ids,
      run_approved_ids, run_hvi, run_hvi, run_processed, run_processed]
    have hrej : (extract_high_value_ids (records.map process_record)
          HIGH_VALUE_THRESHOLD).filter
        (fun i =>
          !((if (extract_high_value_ids (records.map process_record)
              HIGH_VALUE_THRESHOLD).isEmpty then []
            else (some (A.filter (fun j =>
              (extract_high_value_ids (records.map process_record)
                HIGH_VALUE_THRESHOLD).contains j))).getD []).contains i))
        = (extract_high_value_ids (records.map process_record)
            HIGH_VALUE_THRESHOLD).filter
          (fun i =>
            !((if (extract_high_value_ids (records.map process_record)
                HIGH_VALUE_THRESHOLD).isEmpty then []
              else (some A).getD []).contains i)) := by
      apply List.filter_congr
      intro i hi
      by_cases hE : (extract_high_value_ids (records.map process_record)
          HIGH_VALUE_THRESHOLD).isEmpty
      · rw [if_pos hE, if_pos hE]
      · rw [if_neg hE, if_neg hE]
        simp only [Option.getD_some]
        rw [hAids i hi]
    rw [hrej]

/-- C2: when the batch's ids are unique, the approved records and the
rejected records partition the enriched records — every enriched record
lies in exactly one of the two lists, and both lists draw only from the
enriched records. -/
theorem reconciliation_partition (bucket date : String)
    (records : List SalesRecord) (payload : Option (List String))
    (hnd : (records.map (fun r => r.id)).Nodup) :
    (∀ r ∈ (runWorkflow bucket date records payload).processed,
      (r ∈ (runWorkflow bucket date records payload).approved_records ∧
        r ∉ (runWorkflow bucket date records payload).rejected_records) ∨
      (r ∉ (runWorkflow bucket date records payload).approved_records ∧
        r ∈ (runWorkflow bucket date records payload).rejected_records)) ∧
    (∀ r ∈ (runWorkflow bucket date records payload).approved_records,
      r ∈ (runWorkflow bucket date records payload).processed) ∧
    (∀ r ∈ (runWorkflow bucket date records payload).rejected_records,
      r ∈ (runWorkflow bucket date records payload).processed) := by
  have hinj : ∀ a ∈ records.map process_record,
      ∀ b ∈ records.map process_record, a.id = b.id → a = b := by
    have hmapnd : ((records.map process_record).map (fun r => r.id)).Nodup := by
      rw [processed_map_id]; exact hnd
    exact fun a ha b hb hab => List.inj_on_of_nodup_map hmapnd ha hb hab
  refine ⟨?_, ?_, ?_⟩
  · intro r hr
    rw [run_processed] at hr
    rw [run_approved_records, run_rejected_records, run_rejected_ids,
      run_approved_ids, run_hvi, run_processed]
    by_cases hE : (extract_high_value_ids (records.map process_record)
        HIGH_VALUE_THRESHOLD).isEmpty
    · have hHnil : extract_high_value_ids (records.map process_record)
          HIGH_VALUE_THRESHOLD = [] := List.isEmpty_iff.mp hE
      have hlt : r.amount < HIGH_VALUE_THRESHOLD := by
        by_contra hc
        have : r.id ∈ extract_high_value_ids (records.map process_record)
            HIGH_VALUE_THRESHOLD := mem_hvi.mpr ⟨r, hr, by omega, rfl⟩
        rw [hHnil] at this
        exact absurd this (List.not_mem_nil _)
      left
      constructor
      · exact List.mem_filter.mpr ⟨hr, by simp [hlt]⟩
      · intro hmem
        have := (List.mem_filter.mp hmem).2
        rw [hHnil] at this
        simp at this
    · rw [if_neg hE]
      by_cases hA : r.id ∈ payload.getD []
      · left
        constructor
        · exact List.mem_filter.mpr ⟨hr, by simp [List.elem_eq_mem, hA]⟩
        · intro hmem
          have hc := (List.mem_filter.mp hmem).2
          simp only [List.elem_eq_mem, decide_eq_true_eq] at hc
          have := (List.mem_filter.mp hc).2
          simp [List.elem_eq_mem, hA] at this
      · by_cases hTle : HIGH_VALUE_THRESHOLD ≤ r.amount
        · right
          have hidH : r.id ∈ extract_high_value_ids
              (records.map process_record) HIGH_VALUE_THRESHOLD :=
            mem_hvi.mpr ⟨r, hr, hTle, rfl⟩
          constructor
          · intro hmem
            have hc := (List.mem_filter.mp hmem).2
            simp only [Bool.or_eq_true, decide_eq_true_eq,
              List.elem_eq_mem] at hc
            rcases hc with hc | hc
            · omega
            · exact hA (by simpa using hc)
          · refine List.mem_filter.mpr ⟨hr, ?_⟩
            simp only [List.elem_eq_mem, decide_eq_true_eq]
            exact List.mem_filter.mpr ⟨hidH, by simp [List.elem_eq_mem, hA]⟩
        · left
          constructor
          · exact List.mem_filter.mpr ⟨hr, by simp [show r.amount <
              HIGH_VALUE_THRESHOLD by omega]⟩
          · intro hmem
            have hc := (List.mem_filter.mp hmem).2
            simp only [List.elem_eq_mem, decide_eq_true_eq] at hc
            have hidH := (List.mem_filter.mp hc).1
            obtain ⟨s, hs, hsa, hsid⟩ := mem_hvi.mp hidH
            have hsr : s = r := hinj s hs r hr hsid
            rw [hsr] at hsa
            omega
  · intro r hr
    rw [run_approved_records] at hr
    exact (List.mem_filter.mp hr).1
  · intro r hr
    rw [run_rejected_records] at hr
    exact (List.mem_filter.mp hr).1

/-- C2 witness: two records with distinct ids, one high-value and
unapproved payload. -/
theorem reconciliation_partition_witness :
    ([(⟨"a", "c", "p", 100, 1, "r", "g", "t"⟩ : SalesRecord),
        ⟨"b", "c", "p", 2000000, 2, "r", "g", "t"⟩].map
          (fun r => r.id)).Nodup ∧
    ∀ r ∈ (runWorkflow "bkt" "2026-02-20"
        [⟨"a", "c", "p", 100, 1, "r", "g", "t"⟩,
          ⟨"b", "c", "p", 2000000, 2, "r", "g", "t"⟩] none).processed,
      (r ∈ (runWorkflow "bkt" "2026-02-20"
          [⟨"a", "c", "p", 100, 1, "r", "g", "t"⟩,
            ⟨"b", "c", "p", 2000000, 2, "r", "g", "t"⟩] none).approved_records ∧
        r ∉ (runWorkflow "bkt" "2026-02-20"
          [⟨"a", "c", "p", 100, 1, "r", "g", "t"⟩,
            ⟨"b", "c", "p", 2000000, 2, "r", "g", "t"⟩] none).rejected_records) ∨
      (r ∉ (runWorkflow "bkt" "2026-02-20"
          [⟨"a", "c", "p", 100, 1, "r", "g", "t"⟩,
            ⟨"b", "c", "p", 2000000, 2, "r", "g", "t"⟩] none).approved_records ∧
        r ∈ (runWorkflow "bkt" "2026-02-20"
          [⟨"a", "c", "p", 100, 1, "r", "g", "t"⟩,
            ⟨"b", "c", "p", 2000000, 2, "r", "g", "t"⟩] none).rejected_records) :=
  ⟨by decide,
    (reconciliation_partition "bkt" "2026-02-20"
      [⟨"a", "c", "p", 100, 1, "r", "g", "t"⟩,
        ⟨"b", "c", "p", 2000000, 2, "r", "g", "t"⟩] none (by decide)).1⟩

/-- C5: when no record reaches the threshold, the high-value id list is
empty, the gate performs no external interaction (no callback is created
and no approval request is sent), every record is approved and no record
is rejected. -/
theorem empty_high_value_skips_gate (bucket date : String)
    (records : List SalesRecord) (payload : Option (List String))
    (h : ∀ r ∈ records, r.amount < HIGH_VALUE_THRESHOLD) :
    (runWorkflow bucket date records payload).high_value_ids = [] ∧
    (runWorkflow bucket date records payload).gateEvents = [] ∧
    (runWorkflow bucket date records payload).approved_records
      = (runWorkflow bucket date records payload).processed ∧
    (runWorkflow bucket date records payload).rejected_records = [] := by
  have hH : (runWorkflow bucket date records payload).high_value_ids = [] := by
    rw [run_hvi, run_processed]
    unfold extract_high_value_ids
    rw [List.map_eq_nil_iff]
    apply List.filter_eq_nil_iff.mpr
    intro x hx
    obtain ⟨r0, hr0, rfl⟩ := List.mem_map.mp hx
    have hamt : (process_record r0).amount = r0.amount := rfl
    have := h r0 hr0
    simp only [decide_eq_true_eq, hamt]
    omega
  refine ⟨hH, ?_, ?_, ?_⟩
  · rw [run_gateEvents, hH]
    rfl
  · rw [run_approved_records]
    apply List.filter_eq_self.mpr
    intro r hr
    rw [run_processed] at hr
    obtain ⟨r0, hr0, rfl⟩ := List.mem_map.mp hr
    have hamt : (process_record r0).amount = r0.amount := rfl
    have := h r0 hr0
    simp only [Bool.or_eq_true, decide_eq_true_eq, hamt]
    left
    omega
  · rw [run_rejected_records, run_rejected_ids, hH]
    apply List.filter_eq_nil_iff.mpr
    intro r _
    simp

/-- C5 witness: a single record far below the threshold. -/
theorem empty_high_value_skips_gate_witness :
    (runWorkflow "bkt" "2026-02-20"
        [⟨"a", "c", "p", 100, 1, "r", "g", "t"⟩] none).high_value_ids = [] ∧
    (runWorkflow "bkt" "2026-02-20"
        [⟨"a", "c", "p", 100, 1, "r", "g", "t"⟩] none).gateEvents = [] ∧
    (runWorkflow "bkt" "2026-02-20"
        [⟨"a", "c", "p", 100, 1, "r", "g", "t"⟩] none).approved_records
      = (runWorkflow "bkt" "2026-02-20"
          [⟨"a", "c", "p", 100, 1, "r", "g", "t"⟩] none).processed ∧
    (runWorkflow "bkt" "2026-02-20"
        [⟨"a", "c", "p", 100, 1, "r", "g", "t"⟩] none).rejected_records = [] :=
  empty_high_value_skips_gate "bkt" "2026-02-20"
    [⟨"a", "c", "p", 100, 1, "r", "g", "t"⟩] none (by decide)

/-- C10: when the approved-record list is empty, the ledger-sync stage
emits no sync call and no rate-limit wait, the workflow still generates
the report (over an empty approved partition) and returns status
"completed" with the summary report's location. -/
theorem empty_approved_no_sync (bucket date : String)
    (records : List SalesRecord) (payload : Option (List String))
    (h : (runWorkflow bucket date records payload).approved_records = []) :
    (runWorkflow bucket date records payload).ledgerEvents = [] ∧
    (runWorkflow bucket date records payload).result.status = "completed" ∧
    (runWorkflow bucket date records payload).result.report_url
      = (runWorkflow bucket date records payload).report.summary_url ∧
    (runWorkflow bucket date records payload).report
      = generate_report bucket date []
          (runWorkflow bucket date records payload).rejected_records ∧
    (runWorkflow bucket date records payload).report.summary.total_approved
      = 0 := by
  refine ⟨?_, rfl, rfl, ?_, ?_⟩
  · rw [run_ledgerEvents, h]
    rfl
  · rw [run_report, h]
  · rw [run_report, h]
    rfl

/-- C10 witness: a single high-value record and no approval payload. -/
theorem empty_approved_no_sync_witness :
    (runWorkflow "bkt" "2026-02-20"
        [⟨"hv", "c", "p", 2000000, 1, "r", "g", "t"⟩] none).ledgerEvents
      = [] ∧
    (runWorkflow "bkt" "2026-02-20"
        [⟨"hv", "c", "p", 2000000, 1, "r", "g", "t"⟩] none).result.status
      = "completed" ∧
    (runWorkflow "bkt" "2026-02-20"
        [⟨"hv", "c", "p", 2000000, 1, "r", "g", "t"⟩] none).result.report_url
      = (runWorkflow "bkt" "2026-02-20"
          [⟨"hv", "c", "p", 2000000, 1, "r", "g", "t"⟩] none).report.summary_url ∧
    (runWorkflow "bkt" "2026-02-20"
        [⟨"hv", "c", "p", 2000000, 1, "r", "g", "t"⟩] none).report
      = generate_report "bkt" "2026-02-20" []
          (runWorkflow "bkt" "2026-02-20"
            [⟨"hv", "c", "p", 2000000, 1, "r", "g", "t"⟩] none).rejected_records ∧
    (runWorkflow "bkt" "2026-02-20"
        [⟨"hv", "c", "p", 2000000, 1, "r", "g", "t"⟩]
          none).report.summary.total_approved = 0 :=
  empty_approved_no_sync "bkt" "2026-02-20"
    [⟨"hv", "c", "p", 2000000, 1, "r", "g", "t"⟩] none (by decide)

end SalesWf
